import Mathlib

/-!
Formal model of the steno-drill reporting scripts, `script/burden.py` and
`script/tolearn.py`.

Timestamps are modelled as integer seconds since the Unix epoch.  Python
floats are modelled as real numbers in the `burden.py` model (whose cost
formula uses the transcendental `math.log2`) and as rational numbers in the
`tolearn.py` model (whose arithmetic is entirely rational, which keeps that
model fully executable and decidable).  SQLite's `date(t, '-9 hours')`
returns a calendar-date string; we model it by the integer day number of
the shifted timestamp, which is in order-preserving bijection with the
date string.
-/

namespace Burden

/-- A row of the `history` table: one practice-session interval. -/
structure Session where
  start : Int
  stop : Int
deriving DecidableEq

/-- A row of the `errors` table: one recorded mistake, with the
spaced-repetition interval (seconds) that had been reached before it. -/
structure ErrorEvent where
  stamp : Int
  interval : ℝ

/-- SQLite `julianday(t)`: seconds since the Unix epoch converted to a
fractional Julian day number. -/
noncomputable def julianday (t : Int) : ℝ := (t : ℝ) / 86400 + 2440587.5

/-- SQLite `date(start, '-9 hours')` as it appears in the `history` query of
`compute_daily`, modelled as the day number of the shifted timestamp. -/
def dayKeyHistory (t : Int) : Int := (t - 9 * 3600).fdiv 86400

/-- SQLite `date(stamp, '-9 hours')` as it appears in the `errors` query of
`main`, modelled as the day number of the shifted timestamp. -/
def dayKeyErrors (t : Int) : Int := (t - 9 * 3600).fdiv 86400

/-- The SQL aggregate `SUM(julianday(stop) - julianday(start))` restricted to
the group of sessions sharing day key `k`. -/
noncomputable def groupDaySum (history : List Session) (k : Int) : ℝ :=
  ((history.filter fun s => dayKeyHistory s.start = k).map
    fun s => julianday s.stop - julianday s.start).sum

/-- The `compute_daily` function: the `history` query groups sessions by
`date(start, '-9 hours')` and computes `SUM(...) * 24 * 60` per group, and
the Python loop stores each resulting row in a dict keyed by the date. -/
noncomputable def computeDaily (history : List Session) : List (Int × ℝ) :=
  ((history.map fun s => dayKeyHistory s.start).dedup).map
    fun k => (k, groupDaySum history k * 24 * 60)

/-- Elapsed minutes of one session, `(julianday(stop) - julianday(start))`
converted from fractional days to minutes. -/
noncomputable def sessionMinutes (s : Session) : ℝ :=
  (julianday s.stop - julianday s.start) * 24 * 60

/-- Per-event relearning cost added by `Track.add`:
`math.log2(interval / 5.0) * 3.0 / 60.0`. -/
noncomputable def perEventCost (interval : ℝ) : ℝ :=
  Real.logb 2 (interval / 5) * 3 / 60

/-- One line printed by `Track.ship`: the day, the accumulated burden cost,
the daily total minutes, and the surplus `total - cost`. -/
structure Line where
  date : Int
  burden : ℝ
  total : ℝ
  over : ℝ

/-- The mutable state of a `Track` object: the daily-totals dict `daily`
(modelled as a partial map), the open day `last_date`, and the accumulated
cost for that day. -/
structure TrackState where
  daily : Int → Option ℝ
  last_date : Option Int
  cost : ℝ

/-- The `Track.__init__` constructor: no open day, zero cost. -/
def trackInit (daily : Int → Option ℝ) : TrackState :=
  ⟨daily, none, 0⟩

/-- The `Track.ship` method: a no-op when no day is open, otherwise it prints
one line using `self.daily.get(self.last_date, 0)` as the total and resets
the state. -/
noncomputable def shipStep (st : TrackState) : TrackState × List Line :=
  match st.last_date with
  | none => (st, [])
  | some d =>
    let total := (st.daily d).getD 0
    ({ st with last_date := none, cost := 0 }, [⟨d, st.cost, total, total - st.cost⟩])

/-- The `Track.add` method: if the incoming date differs from the open day,
ship the open day and open the new one; then accumulate the per-event cost. -/
noncomputable def addStep (st : TrackState) (date : Int) (interval : ℝ) :
    TrackState × List Line :=
  let fl :=
    if some date ≠ st.last_date then
      let p := shipStep st
      ({ p.1 with last_date := some date }, p.2)
    else (st, [])
  ({ fl.1 with cost := fl.1.cost + perEventCost interval }, fl.2)

/-- Feeding a list of `(date, interval)` error events to `Track.add` in
order, collecting the printed lines. -/
noncomputable def processEvents (st : TrackState) :
    List (Int × ℝ) → TrackState × List Line
  | [] => (st, [])
  | e :: es =>
    let p := addStep st e.1 e.2
    let q := processEvents p.1 es
    (q.1, p.2 ++ q.2)

/-- The whole Burden Tracker loop of `main`: add every event in order, then
a final `ship`; the result is the list of printed lines. -/
noncomputable def burdenTrack (daily : Int → Option ℝ) (events : List (Int × ℝ)) :
    List Line :=
  (processEvents (trackInit daily) events).2 ++
    (shipStep (processEvents (trackInit daily) events).1).2

/-- The report line a day is expected to produce: cost is the sum of the
per-event costs of the day's intervals, total comes from the daily mapping
(0 when absent), over is total minus cost. -/
noncomputable def specLine (daily : Int → Option ℝ) (g : Int × List ℝ) : Line :=
  ⟨g.1, (g.2.map perEventCost).sum, ((daily g.1).getD 0),
    ((daily g.1).getD 0) - (g.2.map perEventCost).sum⟩

/-- Encoding of a day-contiguous event stream from its blocks: block
`(d, ivs)` contributes the events `(d, iv)` for `iv` in `ivs`, in order. -/
def encodeBlocks (gs : List (Int × List ℝ)) : List (Int × ℝ) :=
  gs.flatMap fun g => g.2.map fun iv => (g.1, iv)

/-- The `main` function of `burden.py`: build the daily dict, then run the
tracker over the `errors` rows ordered by `stamp` descending, mapped through
`date(stamp, '-9 hours')`. -/
noncomputable def burdenRun (history : List Session) (errors : List ErrorEvent) :
    List Line :=
  burdenTrack (fun k => (computeDaily history).lookup k)
    ((errors.mergeSort fun a b => b.stamp ≤ a.stamp).map
      fun e => (dayKeyErrors e.stamp, e.interval))

/-- One operation on a `Track` object, for reachability statements. -/
inductive TrackOp where
  | add : Int → ℝ → TrackOp
  | ship : TrackOp

/-- Apply one operation to a `Track` state. -/
noncomputable def opStep (st : TrackState) : TrackOp → TrackState × List Line
  | .add d iv => addStep st d iv
  | .ship => shipStep st

/-- The state reached from a fresh `Track` by a sequence of operations. -/
noncomputable def runOps (daily : Int → Option ℝ) (ops : List TrackOp) : TrackState :=
  ops.foldl (fun st op => (opStep st op).1) (trackInit daily)

end Burden

namespace ToLearn

/-- A row of the `learn` table. -/
structure LearnItem where
  word : String
  goods : Int
  interval : ℚ
  next : ℚ
deriving DecidableEq

/-- One row returned by the query of `tolearn.py`: `word, goods, interval,
next - strftime('%s')`, where `now` stands for the wall-clock value the
SQLite expression `strftime('%s')` evaluates to at query time. -/
structure QRow where
  word : String
  goods : Int
  interval : ℚ
  nx : ℚ
deriving DecidableEq

/-- A numeric cell as rendered by `negfmt`: either parenthesized (negative
input) or padded with spaces (non-negative input), around the magnitude. -/
structure Fmt where
  paren : Bool
  val : ℚ
deriving DecidableEq

/-- The `negfmt` function: negative numbers render as `(%9.2f)` of the
negated value, non-negative ones as `%9.2f` with a space on each side. -/
def negfmt (num : ℚ) : Fmt :=
  if num < 0 then ⟨true, -num⟩ else ⟨false, num⟩

/-- The query of `tolearn.py`: `select word, goods, interval,
next - strftime('%s') from learn order by next limit 50`. -/
def learnQuery (table : List LearnItem) (now : ℚ) : List QRow :=
  ((table.mergeSort fun a b => a.next ≤ b.next).take 50).map
    fun it => ⟨it.word, it.goods, it.interval, it.next - now⟩

/-- One printed data row: the 1-based rank, the word, the goods count, and
the three `negfmt` cells `interval / 60`, `nx / 60` and `nx`. -/
structure OutRow where
  rank : Nat
  word : String
  goods : Int
  ivMin : Fmt
  nxMin : Fmt
  nxSec : Fmt
deriving DecidableEq

/-- Rendering of one query row at a given 1-based rank, following the print
statement of the row loop. -/
def mkOutRow (rank : Nat) (r : QRow) : OutRow :=
  ⟨rank, r.word, r.goods, negfmt (r.interval / 60), negfmt (r.nx / 60), negfmt r.nx⟩

/-- The table printed by `tolearn.py`: the column width `longest` and the
data rows in order. -/
structure Output where
  width : Nat
  rows : List OutRow
deriving DecidableEq

/-- The `main` function of `tolearn.py`.  `longest = max([len(x[0]) for x in
rows])` raises `ValueError` on an empty result set, which propagates out of
`main` as a fatal error; otherwise the rows are printed with a running
1-based counter. -/
def tolearnRun (table : List LearnItem) (now : ℚ) : Except String Output :=
  match ((learnQuery table now).map fun r => r.word.length).max? with
  | none => Except.error "max() arg is an empty sequence"
  | some longest =>
    Except.ok ⟨longest, (learnQuery table now).enum.map fun p => mkOutRow (p.1 + 1) p.2⟩

end ToLearn

namespace Burden

/-- Claim C1: for every error event with positive interval `iv`, `Track.add`
accumulates exactly `log2(iv/5.0) * 3.0/60.0` on top of the cost left after
any day change, and this per-event cost is strictly negative when `iv < 5`,
exactly zero when `iv = 5`, and strictly positive when `iv > 5`. -/
theorem claim_C1 (iv : ℝ) (hiv : 0 < iv) :
    (∀ (st : TrackState) (d : Int),
        ((addStep st d iv).1).cost =
          (if some d = st.last_date then st.cost else (shipStep st).1.cost)
            + perEventCost iv) ∧
    perEventCost iv = Real.logb 2 (iv / 5) * 3 / 60 ∧
    (iv < 5 → perEventCost iv < 0) ∧
    (iv = 5 → perEventCost iv = 0) ∧
    (5 < iv → 0 < perEventCost iv) := by
  refine ⟨?_, rfl, ?_, ?_, ?_⟩
  · intro st d
    by_cases h : some d = st.last_date
    · simp [addStep, h]
    · simp [addStep, h]
  · intro h5
    have hx0 : 0 < iv / 5 := by positivity
    have hx1 : iv / 5 < 1 := by linarith
    have hL : Real.logb 2 (iv / 5) < 0 :=
      Real.logb_neg (by norm_num) hx0 hx1
    unfold perEventCost
    linarith
  · intro h5
    subst h5
    norm_num [perEventCost, Real.logb_one]
  · intro h5
    have hx1 : 1 < iv / 5 := by
      rw [lt_div_iff₀ (by norm_num : (0:ℝ) < 5)]
      linarith
    have hL : 0 < Real.logb 2 (iv / 5) :=
      Real.logb_pos (by norm_num) hx1
    unfold perEventCost
    linarith

/-- Witness for claim C1 at the concrete interval `iv = 3`. -/
theorem claim_C1_witness :
    (0:ℝ) < 3 ∧
      ((∀ (st : TrackState) (d : Int),
          ((addStep st d 3).1).cost =
            (if some d = st.last_date then st.cost else (shipStep st).1.cost)
              + perEventCost 3) ∧
        perEventCost 3 = Real.logb 2 (3 / 5) * 3 / 60 ∧
        ((3:ℝ) < 5 → perEventCost 3 < 0) ∧
        ((3:ℝ) = 5 → perEventCost 3 = 0) ∧
        ((5:ℝ) < 3 → 0 < perEventCost 3)) :=
  ⟨by norm_num, claim_C1 3 (by norm_num)⟩

lemma processEvents_append (l1 l2 : List (Int × ℝ)) :
    ∀ st : TrackState, processEvents st (l1 ++ l2) =
      ((processEvents (processEvents st l1).1 l2).1,
        (processEvents st l1).2 ++ (processEvents (processEvents st l1).1 l2).2) := by
  induction l1 with
  | nil => intro st; simp [processEvents]
  | cons e es ih =>
    intro st
    simp [processEvents, ih]

lemma processEvents_same_day (d : Int) (ivs : List ℝ) :
    ∀ st : TrackState, st.last_date = some d →
      processEvents st (ivs.map fun iv => (d, iv)) =
        ({ st with cost := st.cost + (ivs.map perEventCost).sum }, []) := by
  induction ivs with
  | nil =>
    intro st h
    simp [processEvents]
  | cons iv rest ih =>
    intro st h
    have hadd : addStep st d iv = ({ st with cost := st.cost + perEventCost iv }, []) := by
      simp [addStep, h]
    simp only [List.map_cons, processEvents, hadd]
    rw [ih { st with cost := st.cost + perEventCost iv } (by simp [h])]
    simp [add_assoc]

lemma addStep_new_day (st : TrackState) (d : Int) (iv : ℝ)
    (hne : st.last_date ≠ some d) :
    addStep st d iv =
      (⟨st.daily, some d, (shipStep st).1.cost + perEventCost iv⟩, (shipStep st).2) := by
  cases hld : st.last_date with
  | none => simp [addStep, shipStep, hld]
  | some d0 =>
    have hdd : ¬ d = d0 := by
      intro hcontra
      exact hne (by rw [hld, hcontra])
    simp [addStep, shipStep, hld, hdd]

lemma processEvents_block (d : Int) (iv : ℝ) (ivs : List ℝ) (st : TrackState)
    (hne : st.last_date ≠ some d) :
    processEvents st ((iv :: ivs).map fun x => (d, x)) =
      (⟨st.daily, some d,
          (shipStep st).1.cost + perEventCost iv + (ivs.map perEventCost).sum⟩,
        (shipStep st).2) := by
  rw [List.map_cons]
  simp only [processEvents]
  rw [addStep_new_day st d iv hne]
  rw [processEvents_same_day d ivs
    ⟨st.daily, some d, (shipStep st).1.cost + perEventCost iv⟩ rfl]
  simp

lemma ship_cost_zero (st : TrackState) (hz : st.last_date = none → st.cost = 0) :
    (shipStep st).1.cost = 0 := by
  cases hld : st.last_date with
  | none => simpa [shipStep, hld] using hz hld
  | some d0 => simp [shipStep, hld]

lemma burden_blocks :
    ∀ (gs : List (Int × List ℝ)) (st : TrackState),
      (∀ g ∈ gs, g.2 ≠ []) →
      List.Chain' (fun a b => a ≠ b) (gs.map Prod.fst) →
      (∀ g ∈ gs.head?, st.last_date ≠ some g.1) →
      (st.last_date = none → st.cost = 0) →
      (processEvents st (encodeBlocks gs)).2 ++
          (shipStep (processEvents st (encodeBlocks gs)).1).2 =
        (shipStep st).2 ++ gs.map (specLine st.daily) := by
  intro gs
  induction gs with
  | nil =>
    intro st _ _ _ _
    simp [encodeBlocks, processEvents]
  | cons g rest ih =>
    intro st hne hchain hhead hz
    obtain ⟨iv, ivs, hg⟩ : ∃ iv ivs, g.2 = iv :: ivs := by
      cases hgg : g.2 with
      | nil => exact absurd hgg (hne g (List.mem_cons_self g rest))
      | cons a b => exact ⟨a, b, rfl⟩
    have hst_ne : st.last_date ≠ some g.1 := hhead g (by simp)
    have henc : encodeBlocks (g :: rest) =
        (g.2.map fun x => (g.1, x)) ++ encodeBlocks rest := by
      simp [encodeBlocks]
    rw [henc, processEvents_append, hg, processEvents_block g.1 iv ivs st hst_ne]
    have hc0 : (shipStep st).1.cost = 0 := ship_cost_zero st hz
    rw [hc0]
    dsimp only
    have hih := ih ⟨st.daily, some g.1, 0 + perEventCost iv + (ivs.map perEventCost).sum⟩
      (fun g' hg' => hne g' (List.mem_cons_of_mem g hg'))
      (by simpa using hchain.tail)
      ?_ (fun hcontra => by simp at hcontra)
    · rw [List.append_assoc, hih]
      have hship : (shipStep
          (⟨st.daily, some g.1, 0 + perEventCost iv + (ivs.map perEventCost).sum⟩ :
            TrackState)).2 = [specLine st.daily g] := by
        simp [shipStep, specLine, hg]
      rw [hship]
      simp
    · intro g' hg'
      cases rest with
      | nil => simp at hg'
      | cons r rs =>
        have hg'r : r = g' := by simpa using hg'
        subst hg'r
        have hrel : g.1 ≠ r.1 := (List.chain'_cons.mp (by simpa using hchain)).1
        simp [hrel]

/-- Claim C2: over any error-event stream in which all events sharing a day
key are contiguous (presented as nonempty blocks with pairwise-distinct day
keys) and any Daily Totals mapping, the Burden Tracker emits exactly one
line per distinct day key, in encounter order; each line carries that day's
cost (the sum of the per-event costs of exactly that day's events), the
Daily Totals value for the key (0 when absent), and over = total - cost.
The empty stream yields zero lines. -/
theorem claim_C2 (daily : Int → Option ℝ) (gs : List (Int × List ℝ))
    (hne : ∀ g ∈ gs, g.2 ≠ [])
    (hnd : (gs.map Prod.fst).Nodup) :
    burdenTrack daily [] = [] ∧
    burdenTrack daily (encodeBlocks gs) = gs.map (specLine daily) := by
  constructor
  · simp [burdenTrack, processEvents, trackInit, shipStep]
  · have h := burden_blocks gs (trackInit daily) hne hnd.chain'
      (fun g _ => by simp [trackInit]) (fun _ => rfl)
    simpa [burdenTrack, trackInit, shipStep] using h

/-- Witness for claim C2 on a concrete two-day stream with two events on
the first day and one on the second, and a daily mapping defined on both
days. -/
theorem claim_C2_witness :
    (∀ g ∈ ([(0, [10, 20]), (1, [5])] : List (Int × List ℝ)), g.2 ≠ []) ∧
      (([(0, [10, 20]), (1, [5])] : List (Int × List ℝ)).map Prod.fst).Nodup ∧
      (burdenTrack (fun k => if k = 0 then some 100 else if k = 1 then some 50 else none) [] = [] ∧
        burdenTrack (fun k => if k = 0 then some 100 else if k = 1 then some 50 else none)
            (encodeBlocks [(0, [10, 20]), (1, [5])]) =
          ([(0, [10, 20]), (1, [5])] : List (Int × List ℝ)).map
            (specLine fun k => if k = 0 then some 100 else if k = 1 then some 50 else none)) :=
  ⟨by simp,
    by decide,
    claim_C2 (fun k => if k = 0 then some 100 else if k = 1 then some 50 else none)
      [(0, [10, 20]), (1, [5])]
      (by simp)
      (by decide)⟩

lemma addStep_last (st : TrackState) (d : Int) (iv : ℝ) :
    (addStep st d iv).1.last_date = some d := by
  by_cases h : some d = st.last_date
  · simp [addStep, h]
  · simp [addStep, h]

lemma inv_step (st : TrackState) (op : TrackOp)
    (h : st.last_date = none → st.cost = 0) :
    (opStep st op).1.last_date = none → (opStep st op).1.cost = 0 := by
  cases op with
  | add d iv =>
    intro hnone
    rw [opStep, addStep_last] at hnone
    cases hnone
  | ship =>
    intro _
    cases hld : st.last_date with
    | none => simp [opStep, shipStep, hld, h hld]
    | some d => simp [opStep, shipStep, hld]

lemma runOps_inv (daily : Int → Option ℝ) (ops : List TrackOp) :
    (runOps daily ops).last_date = none → (runOps daily ops).cost = 0 := by
  suffices h : ∀ (l : List TrackOp) (st : TrackState),
      (st.last_date = none → st.cost = 0) →
      ((l.foldl (fun st op => (opStep st op).1) st).last_date = none →
        (l.foldl (fun st op => (opStep st op).1) st).cost = 0) by
    exact h ops (trackInit daily) fun _ => rfl
  intro l
  induction l with
  | nil => exact fun st h => h
  | cons op rest ih => exact fun st h => ih _ (inv_step st op h)

/-- Claim C10: in every state reachable from a fresh `Track` by `add` and
`ship` calls, `last_date = None` implies `cost = 0`; every `ship` prints at
most one line, and a `ship` immediately after a `ship` prints nothing and
leaves the state unchanged. -/
theorem claim_C10 (daily : Int → Option ℝ) (ops : List TrackOp) :
    ((runOps daily ops).last_date = none → (runOps daily ops).cost = 0) ∧
    (∀ st : TrackState, (shipStep st).2.length ≤ 1) ∧
    shipStep (shipStep (runOps daily ops)).1 = ((shipStep (runOps daily ops)).1, []) := by
  refine ⟨runOps_inv daily ops, ?_, ?_⟩
  · intro st
    cases h : st.last_date <;> simp [shipStep, h]
  · cases h : (runOps daily ops).last_date <;> simp [shipStep, h]

/-- Witness for claim C10 on the concrete operation sequence add-then-ship
with an empty daily mapping. -/
theorem claim_C10_witness :
    ((runOps (fun _ => none) [TrackOp.add 0 10, TrackOp.ship]).last_date = none →
      (runOps (fun _ => none) [TrackOp.add 0 10, TrackOp.ship]).cost = 0) ∧
    (∀ st : TrackState, (shipStep st).2.length ≤ 1) ∧
    shipStep (shipStep (runOps (fun _ => none) [TrackOp.add 0 10, TrackOp.ship])).1 =
      ((shipStep (runOps (fun _ => none) [TrackOp.add 0 10, TrackOp.ship])).1, []) :=
  claim_C10 (fun _ => none) [TrackOp.add 0 10, TrackOp.ship]

lemma lookup_keyed_map (f : Int → ℝ) :
    ∀ (l : List Int) (k : Int), k ∈ l →
      (l.map fun a => (a, f a)).lookup k = some (f k) := by
  intro l
  induction l with
  | nil => intro k hk; cases hk
  | cons a t ih =>
    intro k hk
    by_cases h : k = a
    · subst h
      simp [List.lookup]
    · have hk' : k ∈ t := by
        cases hk with
        | head => exact absurd rfl h
        | tail _ h2 => exact h2
      have hbeq : (k == a) = false := beq_eq_false_iff_ne.mpr h
      simpa [List.lookup, hbeq] using ih k hk'

lemma computeDaily_lookup (history : List Session) (k : Int)
    (hk : k ∈ history.map fun s => dayKeyHistory s.start) :
    (computeDaily history).lookup k = some (groupDaySum history k * 24 * 60) :=
  lookup_keyed_map _ _ k (List.mem_dedup.mpr hk)

lemma groupDaySum_mul (history : List Session) (k : Int) :
    groupDaySum history k * 24 * 60 =
      ((history.filter fun s => dayKeyHistory s.start = k).map sessionMinutes).sum := by
  unfold groupDaySum sessionMinutes
  rw [List.sum_map_mul_right, List.sum_map_mul_right]

/-- Claim C3: the Daily-Time Aggregator maps each day key occurring in the
session stream to the sum, over exactly the sessions of that group, of the
elapsed time `(stop - start)` in fractional days converted to minutes; the
total is invariant under reordering of the session stream, and duplicate
intervals are summed rather than deduplicated (the group sum ranges over the
filtered list with multiplicity). -/
theorem claim_C3 (history h2 : List Session) (hperm : history.Perm h2) (k : Int)
    (hk : k ∈ history.map fun s => dayKeyHistory s.start) :
    ((computeDaily history).lookup k).getD 0 =
      ((history.filter fun s => dayKeyHistory s.start = k).map sessionMinutes).sum ∧
    ((computeDaily history).lookup k).getD 0 = ((computeDaily h2).lookup k).getD 0 := by
  have hmain : ((computeDaily history).lookup k).getD 0 =
      ((history.filter fun s => dayKeyHistory s.start = k).map sessionMinutes).sum := by
    rw [computeDaily_lookup history k hk, Option.getD_some, groupDaySum_mul]
  refine ⟨hmain, ?_⟩
  have hk2 : k ∈ h2.map fun s => dayKeyHistory s.start :=
    (hperm.map fun s => dayKeyHistory s.start).mem_iff.mp hk
  have hmain2 : ((computeDaily h2).lookup k).getD 0 =
      ((h2.filter fun s => dayKeyHistory s.start = k).map sessionMinutes).sum := by
    rw [computeDaily_lookup h2 k hk2, Option.getD_some, groupDaySum_mul]
  rw [hmain, hmain2]
  exact ((hperm.filter _).map sessionMinutes).sum_eq

/-- Witness for claim C3: two sessions on the same day, against the
reversed stream, looked up at their common day key. -/
theorem claim_C3_witness :
    ([⟨0, 60⟩, ⟨30, 90⟩] : List Session).Perm [⟨30, 90⟩, ⟨0, 60⟩] ∧
      (-1 : Int) ∈ ([⟨0, 60⟩, ⟨30, 90⟩] : List Session).map
        (fun s => dayKeyHistory s.start) ∧
      (((computeDaily [⟨0, 60⟩, ⟨30, 90⟩]).lookup (-1)).getD 0 =
        ((([⟨0, 60⟩, ⟨30, 90⟩] : List Session).filter
          fun s => dayKeyHistory s.start = -1).map sessionMinutes).sum ∧
      ((computeDaily [⟨0, 60⟩, ⟨30, 90⟩]).lookup (-1)).getD 0 =
        ((computeDaily [⟨30, 90⟩, ⟨0, 60⟩]).lookup (-1)).getD 0) :=
  ⟨List.Perm.swap (⟨30, 90⟩ : Session) (⟨0, 60⟩ : Session) [],
    by decide,
    claim_C3 [⟨0, 60⟩, ⟨30, 90⟩] [⟨30, 90⟩, ⟨0, 60⟩]
      (List.Perm.swap (⟨30, 90⟩ : Session) (⟨0, 60⟩ : Session) []) (-1) (by decide)⟩

/-- Claim C9: the day key used by `compute_daily` for a session's `start`
and the day key used by the `errors` query for an error's `stamp` are the
same function of the timestamp (both are `date(t, '-9 hours')`), so a
session and an error at the same instant land in the same day bucket. -/
theorem claim_C9 : ∀ t : Int, dayKeyHistory t = dayKeyErrors t :=
  fun _ => rfl

end Burden

namespace ToLearn

lemma learnQuery_length (table : List LearnItem) (now : ℚ) :
    (learnQuery table now).length = min 50 table.length := by
  simp [learnQuery]

lemma learnQuery_ne_nil (table : List LearnItem) (now : ℚ) (hne : table ≠ []) :
    learnQuery table now ≠ [] := by
  intro h0
  have hlen := learnQuery_length table now
  rw [h0] at hlen
  have h1 : table.length = 0 := by
    simp at hlen
    omega
  exact hne (List.length_eq_zero.mp h1)

lemma exists_max (table : List LearnItem) (now : ℚ) (hne : table ≠ []) :
    ∃ m, ((learnQuery table now).map fun r => r.word.length).max? = some m := by
  cases h : ((learnQuery table now).map fun r => r.word.length).max? with
  | none =>
    have : (learnQuery table now).map (fun r => r.word.length) = [] :=
      List.max?_eq_none_iff.mp h
    simp at this
    exact absurd this (learnQuery_ne_nil table now hne)
  | some m => exact ⟨m, rfl⟩

lemma tolearnRun_eq_ok (table : List LearnItem) (now : ℚ) (m : Nat)
    (hm : ((learnQuery table now).map fun r => r.word.length).max? = some m) :
    tolearnRun table now =
      Except.ok ⟨m, (learnQuery table now).enum.map fun p => mkOutRow (p.1 + 1) p.2⟩ := by
  simp [tolearnRun, hm]

/-- Claim C5: when the query returns an empty result set, `main` fails with
the error raised by `max` on an empty sequence — surfaced to the caller as a
fatal, non-zero exit — instead of printing any table. -/
theorem claim_C5 (table : List LearnItem) (now : ℚ)
    (hq : learnQuery table now = []) :
    tolearnRun table now = Except.error "max() arg is an empty sequence" := by
  simp [tolearnRun, hq]

/-- Witness for claim C5: the empty `learn` table. -/
theorem claim_C5_witness :
    learnQuery [] 0 = [] ∧
      tolearnRun [] 0 = Except.error "max() arg is an empty sequence" :=
  ⟨by simp [learnQuery], claim_C5 [] 0 (by simp [learnQuery])⟩

/-- Claim C7: on a non-empty result set the printed column width is the
length of the longest `word` among the returned rows, not a hard-coded
constant. -/
theorem claim_C7 (table : List LearnItem) (now : ℚ) (hne : table ≠ []) :
    ∃ out, tolearnRun table now = Except.ok out ∧
      out.width ∈ (learnQuery table now).map (fun r => r.word.length) ∧
      ∀ l ∈ (learnQuery table now).map fun r => r.word.length, l ≤ out.width := by
  obtain ⟨m, hm⟩ := exists_max table now hne
  have hmem := List.max?_eq_some_iff'.mp hm
  exact ⟨⟨m, (learnQuery table now).enum.map fun p => mkOutRow (p.1 + 1) p.2⟩,
    tolearnRun_eq_ok table now m hm, hmem.1, hmem.2⟩

lemma sortedTable_pairwise (table : List LearnItem) :
    ((table.mergeSort fun a b => a.next ≤ b.next).take 50).Pairwise
      (fun a b => a.next ≤ b.next) := by
  have hs := @List.sorted_mergeSort LearnItem
    (fun a b : LearnItem => a.next ≤ b.next)
    (fun a b c hab hbc => by
      simp only [decide_eq_true_eq] at *
      exact le_trans hab hbc)
    (fun a b => by
      simp only [Bool.or_eq_true, decide_eq_true_eq]
      exact le_total a.next b.next)
    table
  have hp : (table.mergeSort fun a b => a.next ≤ b.next).Pairwise
      (fun a b => a.next ≤ b.next) :=
    hs.imp fun h => by simpa using h
  exact hp.sublist (List.take_sublist 50 _)

/-- Claim C4: on a non-empty result set the reporter prints `min(50, n)`
data rows preserving ascending order of `next`; row `i` (0-based) shows the
1-based rank `i + 1`, the word, the goods count, and the `negfmt` renderings
of `interval / 60`, `(next - now) / 60` and `next - now`, where `negfmt`
parenthesizes exactly the strictly negative values and otherwise pads with a
space, around the absolute value. -/
theorem claim_C4 (table : List LearnItem) (now : ℚ) (hne : table ≠ []) :
    ∃ out, tolearnRun table now = Except.ok out ∧
      out.rows.length = min 50 table.length ∧
      ((table.mergeSort fun a b => a.next ≤ b.next).take 50).Pairwise
        (fun a b => a.next ≤ b.next) ∧
      (∀ i (h1 : i < out.rows.length) (h2 : i < (learnQuery table now).length),
        out.rows.get ⟨i, h1⟩ = mkOutRow (i + 1) ((learnQuery table now).get ⟨i, h2⟩)) ∧
      (∀ q : ℚ, ((negfmt q).paren = true ↔ q < 0) ∧ (negfmt q).val = |q|) := by
  obtain ⟨m, hm⟩ := exists_max table now hne
  refine ⟨⟨m, (learnQuery table now).enum.map fun p => mkOutRow (p.1 + 1) p.2⟩,
    tolearnRun_eq_ok table now m hm, ?_, sortedTable_pairwise table, ?_, ?_⟩
  · simp [learnQuery_length]
  · intro i h1 h2
    simp
  · intro q
    by_cases hq : q < 0
    · simp [negfmt, hq, abs_of_neg hq]
    · simp [negfmt, hq, abs_of_nonneg (le_of_not_lt hq)]

/-- Witness for claim C4 at a concrete two-row table. -/
theorem claim_C4_witness :
    ([⟨"ab", 1, 60, 100⟩, ⟨"c", 2, 120, 50⟩] : List LearnItem) ≠ [] ∧
      (∃ out, tolearnRun [⟨"ab", 1, 60, 100⟩, ⟨"c", 2, 120, 50⟩] 7 = Except.ok out ∧
        out.rows.length = min 50 ([⟨"ab", 1, 60, 100⟩, ⟨"c", 2, 120, 50⟩] : List LearnItem).length ∧
        ((([⟨"ab", 1, 60, 100⟩, ⟨"c", 2, 120, 50⟩] : List LearnItem).mergeSort
            fun a b => a.next ≤ b.next).take 50).Pairwise
          (fun a b => a.next ≤ b.next) ∧
        (∀ i (h1 : i < out.rows.length)
            (h2 : i < (learnQuery [⟨"ab", 1, 60, 100⟩, ⟨"c", 2, 120, 50⟩] 7).length),
          out.rows.get ⟨i, h1⟩ =
            mkOutRow (i + 1) ((learnQuery [⟨"ab", 1, 60, 100⟩, ⟨"c", 2, 120, 50⟩] 7).get ⟨i, h2⟩)) ∧
        (∀ q : ℚ, ((negfmt q).paren = true ↔ q < 0) ∧ (negfmt q).val = |q|)) :=
  ⟨by simp, claim_C4 [⟨"ab", 1, 60, 100⟩, ⟨"c", 2, 120, 50⟩] 7 (by simp)⟩

/-- Witness for claim C7 at a concrete one-row table. -/
theorem claim_C7_witness :
    ([⟨"ab", 1, 60, 100⟩] : List LearnItem) ≠ [] ∧
      (∃ out, tolearnRun [⟨"ab", 1, 60, 100⟩] 0 = Except.ok out ∧
        out.width ∈ (learnQuery [⟨"ab", 1, 60, 100⟩] 0).map (fun r => r.word.length) ∧
        ∀ l ∈ (learnQuery [⟨"ab", 1, 60, 100⟩] 0).map fun r => r.word.length,
          l ≤ out.width) :=
  ⟨by simp, claim_C7 [⟨"ab", 1, 60, 100⟩] 0 (by simp)⟩

/-- Counterexample to claim C6 as stated: the Pending-Review Reporter's
output is not a function of the data store alone.  On the one-item store
below, a run at wall-clock time 0 and a run at wall-clock time 3000 produce
different output (the due-in columns change), because the query subtracts
the current `strftime('%s')` from `next`. -/
theorem claim_C6_counterexample :
    ¬ (∀ (table : List LearnItem) (now1 now2 : ℚ),
        tolearnRun table now1 = tolearnRun table now2) := by
  intro h
  have h2 := h [⟨"a", 0, 60, 100⟩] 0 3000
  have e1 : learnQuery [⟨"a", 0, 60, 100⟩] 0 = [⟨"a", 0, 60, 100⟩] := by
    simp [learnQuery]
  have e2 : learnQuery [⟨"a", 0, 60, 100⟩] 3000 = [⟨"a", 0, 60, -2900⟩] := by
    simp [learnQuery]
    norm_num
  rw [tolearnRun, tolearnRun, e1, e2] at h2
  simp [List.max?, mkOutRow, negfmt] at h2
  norm_num at h2

/-- Claim C6 (amended): the Burden Tracker's output is a deterministic
function of the data store alone, and the Pending-Review Reporter's output
is a deterministic function of the data store and the wall-clock time, so
two runs at the same instant against an unchanged store are identical; runs
at different times may differ in the due-in columns. -/
theorem claim_C6_amended (history : List Burden.Session)
    (errors : List Burden.ErrorEvent) (table : List LearnItem)
    (now1 now2 : ℚ) (hnow : now1 = now2) :
    Burden.burdenRun history errors = Burden.burdenRun history errors ∧
    tolearnRun table now1 = tolearnRun table now2 :=
  ⟨rfl, by rw [hnow]⟩

/-- Witness for the amended claim C6 on a concrete store and time. -/
theorem claim_C6_witness :
    (0 : ℚ) = 0 ∧
      (Burden.burdenRun [] [] = Burden.burdenRun [] [] ∧
        tolearnRun [⟨"a", 0, 60, 100⟩] 0 = tolearnRun [⟨"a", 0, 60, 100⟩] 0) :=
  ⟨rfl, claim_C6_amended [] [] [⟨"a", 0, 60, 100⟩] 0 0 rfl⟩

end ToLearn
